import Mathlib

/-!
Verification of the Otus web-console event hub
(`src/voip-simulator/console/app.py`): a shallow embedding of the
JSON-like values the Kafka consumers decode, Python dictionaries as
ordered association lists, bounded `queue.Queue`s, the packet and
response handlers, the fan-out to SSE subscriber queues, the per-channel
ring buffer, and the command endpoint with its pending-waiter map.
-/

namespace Otus

/-- JSON-like values as produced by `json.loads` in the consumers'
value deserializer.  JSON numbers are modelled as integers (the only
numeric fields the hub inspects are epoch timestamps and ids); `obj`
keeps fields in insertion order exactly like a Python dict. -/
inductive JVal where
  | null
  | bool (b : Bool)
  | int (n : Int)
  | str (s : String)
  | list (xs : List JVal)
  | obj (fields : List (String × JVal))

/-- First-match lookup in an ordered association list — Python dict
lookup (keys are unique in any dict the program builds). -/
def dictFind {α : Type} (d : List (String × α)) (k : String) : Option α :=
  match d with
  | [] => none
  | (k1, v) :: rest => if k1 = k then some v else dictFind rest k

/-- Python dict assignment `d[k] = v`: replace the value in place when
the key is present, otherwise append the binding at the end (insertion
order preserved, as in CPython). -/
def dictInsert {α : Type} (d : List (String × α)) (k : String) (v : α) :
    List (String × α) :=
  match d with
  | [] => [(k, v)]
  | (k1, v1) :: rest =>
    if k1 = k then (k1, v) :: rest else (k1, v1) :: dictInsert rest k v

/-- Python `dict.pop(k, None)` seen through its effect on the mapping:
the binding for `k` is removed.  Dict keys are unique, so filtering out
every binding for `k` coincides with removing the single one. -/
def eraseKey {α : Type} (d : List (String × α)) (k : String) :
    List (String × α) :=
  d.filter (fun p => p.1 ≠ k)

/-- Building a Python dict from a pair list (`{k: v for k, v in ...}`):
later values override, first-occurrence position is kept. -/
def dictOfList {α : Type} (l : List (String × α)) : List (String × α) :=
  l.foldl (fun d p => dictInsert d p.1 p.2) []

/-- A `queue.Queue` with its identity: `qid` models Python object
identity (every queue the program stores is created fresh), `cap` is
`maxsize` (always positive here), `items` the queued elements, oldest
first. -/
structure SQueue (α : Type) where
  qid : Nat
  cap : Nat
  items : List α

/-- `queue.Queue.full()` for a positive `maxsize`. -/
def isFull {α : Type} (q : SQueue α) : Bool :=
  decide (q.cap ≤ q.items.length)

/-- `queue.Queue.put_nowait`: `none` models the raised `queue.Full`. -/
def putNowait {α : Type} (q : SQueue α) (x : α) : Option (SQueue α) :=
  if q.cap ≤ q.items.length then none else some { q with items := q.items ++ [x] }

/-- The fan-out pass shared by `_handle_packet` (lines 222-230) and
`_handle_response` (lines 291-299): one `put_nowait` attempt per
registered queue, mutating each non-full queue in place, plus the
identities of the queues found full (the `dead` list). -/
def pushAll {α : Type} (subs : List (SQueue α)) (x : α) :
    List (SQueue α) × List Nat :=
  (subs.map (fun q => match putNowait q x with | some q1 => q1 | none => q),
   (subs.filter (fun q => isFull q)).map (fun q => q.qid))

/-- Python `list.remove(q)` on a subscriber list: queues compare by
object identity, so the first element with the matching `qid` is
removed. -/
def removeByQid {α : Type} (subs : List (SQueue α)) (i : Nat) :
    List (SQueue α) :=
  match subs with
  | [] => []
  | q :: rest => if q.qid = i then rest else q :: removeByQid rest i

/-- One publish cycle of the SSE fan-out: deliver to every queue,
collect the full ones as dead, then remove each dead queue from the
subscriber list. -/
def publishToSubs {α : Type} (subs : List (SQueue α)) (x : α) :
    List (SQueue α) :=
  let r := pushAll subs x
  r.2.foldl removeByQid r.1

/-- `MAX_QUEUE_SIZE` (line 51): per-channel ring-buffer capacity. -/
def MAX_QUEUE_SIZE : Nat := 500

/-- `RESPONSE_TIMEOUT_S` (line 54): caller-side response deadline. -/
def RESPONSE_TIMEOUT_S : Nat := 30

/-- The guarded `put_nowait` on the ring buffer: a still-full buffer
silently drops the record (the `except queue.Full: pass` branch). -/
def ringPut {α : Type} (cap : Nat) (b : List α) (x : α) : List α :=
  if cap ≤ b.length then b else b ++ [x]

/-- Ring-buffer insert, `_handle_packet` lines 232-242: when the
bounded queue is full, drop the oldest record (`get_nowait`), then
append the new record. -/
def ringPush {α : Type} (cap : Nat) (buf : List α) (x : α) : List α :=
  ringPut cap (if cap ≤ buf.length then buf.drop 1 else buf) x

/-- `k.startswith("l.")`: the first two characters are `l` and `.`. -/
def strHasLabelMark (s : String) : Bool :=
  match s.data with
  | 'l' :: '.' :: _ => true
  | _ => false

/-- `k[2:]`: the key with the two-character label marker removed. -/
def stripLabelMark (s : String) : String :=
  ⟨s.data.drop 2⟩

/-- `_parse_packet_headers` (lines 174-192): build the headers dict from
the (already UTF-8 decoded) header pairs, then split it into the
non-label envelope part and the label part with the `"l."` namespace
marker stripped.  An empty header list yields two empty dicts, matching
the `return {}` early exit as observed through `extra.get`. -/
def parsePacketHeaders (headers : List (String × String)) :
    List (String × String) × List (String × String) :=
  let hd := dictOfList headers
  (hd.filter (fun p => ¬ strHasLabelMark p.1),
   (hd.filter (fun p => strHasLabelMark p.1)).map
     (fun p => (stripLabelMark p.1, p.2)))

/-- An idealised CPython float: exact finite decimal values
`num * 10 ^ exp10`, the two infinities, and NaN.  Binary rounding is
idealised away (finite values stay exact); this is faithful for every
value the claims exercise. -/
inductive PyFloat where
  | finite (num : Int) (exp10 : Int)
  | posInf
  | negInf
  | nan

/-- A non-empty all-digit run and its value. -/
def parseDigits (cs : List Char) : Option Nat :=
  if cs.isEmpty then none
  else if cs.all Char.isDigit then
    some (cs.foldl (fun a c => a * 10 + (c.toNat - 48)) 0)
  else none

/-- Split at the first occurrence of a character, `none` when absent. -/
def splitOnChar (c : Char) (cs : List Char) : List Char × Option (List Char) :=
  match cs with
  | [] => ([], none)
  | a :: rest =>
    if a = c then ([], some rest)
    else
      let r := splitOnChar c rest
      (a :: r.1, r.2)

/-- Leading sign of a numeric literal. -/
def parseSign (cs : List Char) : Int × List Char :=
  match cs with
  | '-' :: rest => (-1, rest)
  | '+' :: rest => (1, rest)
  | _ => (1, cs)

/-- Digits with optional fraction: value of the digit string with the
dot removed, together with the number of fractional digits. -/
def parseMantissa (cs : List Char) : Option (Nat × Nat) :=
  let s := splitOnChar '.' cs
  match s.2 with
  | none => (parseDigits cs).map (fun n => (n, 0))
  | some f =>
    if (s.1 ++ f).isEmpty then none
    else if (s.1 ++ f).all Char.isDigit then
      some ((s.1 ++ f).foldl (fun a c => a * 10 + (c.toNat - 48)) 0, f.length)
    else none

/-- Signed exponent digits. -/
def parseExp (cs : List Char) : Option Int :=
  let p := parseSign cs
  (parseDigits p.2).map (fun n => p.1 * n)

/-- ASCII lowercasing of one character. -/
def lowerChar (c : Char) : Char :=
  if 'A' ≤ c ∧ c ≤ 'Z' then Char.ofNat (c.toNat + 32) else c

/-- Python-style strip of surrounding whitespace. -/
def stripSpaces (cs : List Char) : List Char :=
  ((cs.dropWhile Char.isWhitespace).reverse.dropWhile Char.isWhitespace).reverse

/-- The exact saturation threshold of IEEE-754 double rounding: a real
of magnitude at least `2 ^ 1024 - 2 ^ 970` (the midpoint just above the
largest finite double) rounds to an infinity, and CPython's correctly
rounded string-to-double conversion then yields `inf`.  Written as a
numeral so concrete packets evaluate; `DBL_OVERFLOW_eq` checks it. -/
def DBL_OVERFLOW : Nat := 179769313486231580793728971405303415079934132710037826936173778980444968292764750946649017977587207096330286416692887910946555547851940402630657488671505820681908902000708383676273854845817711531764475730270069855571366959622842914819860834936475292719074168444365510704342711559699508093042880177904174497792

/-- Whether the exact decimal value `num * 10 ^ exp10` saturates a
CPython float to an infinity.  The comparison is exact rational
arithmetic (cross-multiplied for negative exponents); exponents of 400
or more always overflow, which keeps the powers the kernel evaluates
small. -/
def overflowsDouble (num : Int) (exp10 : Int) : Bool :=
  if num = 0 then false
  else if 0 ≤ exp10 then
    if 400 ≤ exp10 then true
    else DBL_OVERFLOW ≤ num.natAbs * 10 ^ exp10.toNat
  else DBL_OVERFLOW * 10 ^ (-exp10).toNat ≤ num.natAbs

/-- Package an exact decimal value as a CPython float: saturate to a
signed infinity at the double-overflow threshold, keep it exact below
it.  Sub-threshold round-to-nearest error (values beyond `2 ^ 53`) is
idealised away; it never changes the ok-versus-error classification
the theorems rely on, only the numeric value, and no claim inspects
numeric values in that range. -/
def mkPyFloat (num : Int) (exp10 : Int) : PyFloat :=
  if overflowsDouble num exp10 then
    if num < 0 then .negInf else .posInf
  else .finite num exp10

/-- Model of CPython `float(s)` on the strings this program can see:
strip surrounding whitespace, case-insensitively accept optional sign
followed by `inf`/`infinity`/`nan`, or a decimal literal with optional
fraction and exponent, saturating to an infinity at the double-overflow
threshold (`float("1e400")` is `inf`).  Underscore digit separators and
non-ASCII digits are not modelled; no claim depends on them. -/
def strToPyFloat (s : String) : Option PyFloat :=
  let t := (stripSpaces s.data).map lowerChar
  let p := parseSign t
  if p.2 = ['i', 'n', 'f'] ∨ p.2 = ['i', 'n', 'f', 'i', 'n', 'i', 't', 'y'] then
    some (if p.1 = 1 then .posInf else .negInf)
  else if p.2 = ['n', 'a', 'n'] then some .nan
  else
    let m := splitOnChar 'e' p.2
    match parseMantissa m.1 with
    | none => none
    | some mv =>
      match m.2 with
      | none => some (mkPyFloat (p.1 * mv.1) (-(mv.2 : Int)))
      | some ecs =>
        match parseExp ecs with
        | none => none
        | some e => some (mkPyFloat (p.1 * mv.1) (e - (mv.2 : Int)))

/-- Outcome of `int(float(str(v)))` as classified by the
`except (ValueError, TypeError)` clause in `_handle_packet`
(lines 210-217): `val` a converted integer, `caught` a raised
`ValueError`/`TypeError` (handled — the timestamp falls back to the
receipt time), `overflow` the `OverflowError` that `int()` raises on an
infinite float, which the except clause does not list and which
therefore escapes the handler. -/
inductive ConvRes where
  | val (n : Int)
  | caught
  | overflow

/-- `int(f)` on a Python float: truncation toward zero for finite
values (`Int.tdiv`), `OverflowError` for infinities, `ValueError` for
NaN. -/
def truncPyFloat : PyFloat → ConvRes
  | .finite num e =>
    .val (if 0 ≤ e then num * (10 : Int) ^ e.toNat
          else Int.tdiv num ((10 : Int) ^ (-e).toNat))
  | .posInf => .overflow
  | .negInf => .overflow
  | .nan => .caught

/-- `int(float(str(ts_raw)))`: integers survive the round trip unless
their magnitude saturates the double conversion to an infinity (then
`int(inf)` raises the uncaught `OverflowError`), strings go through the
float grammar, everything else (`str` of a bool, list or dict is never
numeric) raises a caught `ValueError`. -/
def convertTs : JVal → ConvRes
  | .int n => if overflowsDouble n 0 then .overflow else .val n
  | .str s =>
    match strToPyFloat s with
    | none => .caught
    | some f => truncPyFloat f
  | .bool _ => .caught
  | .null => .caught
  | .list _ => .caught
  | .obj _ => .caught

/-- Exceptions that can escape `_handle_packet` into the consumer
loop's catch-all: `attrErr` is the `AttributeError` from calling
`.update` on a non-dict `labels` value, `overflowErr` the uncaught
`OverflowError` from normalising an infinite timestamp. -/
inductive PyErr where
  | attrErr
  | overflowErr

/-- The seconds-versus-milliseconds heuristic threshold `10 ^ 11`
(line 213). -/
def THRESH : Int := 100000000000

/-- `dict.update` of string-valued header labels into a JSON label
dict: later writes win, insertion order preserved. -/
def mergeStrLabels (base : List (String × JVal))
    (labels : List (String × String)) : List (String × JVal) :=
  labels.foldl (fun d p => dictInsert d p.1 (.str p.2)) base

/-- A string-valued dict as a JSON object. -/
def objOfStrDict (d : List (String × String)) : JVal :=
  .obj (d.map (fun p => (p.1, .str p.2)))

/-- Lines 199-201: `packet.setdefault("labels", {}).update(header_labels)`
when any header labels are present (an empty dict is falsy, so the
merge is skipped); calling `.update` through a non-dict `labels`
payload value raises `AttributeError`. -/
def mergeLabelsStep (fields : List (String × JVal))
    (labs : List (String × String)) : Except PyErr (List (String × JVal)) :=
  if labs.isEmpty then pure fields
  else
    match dictFind fields "labels" with
    | none => pure (dictInsert fields "labels" (.obj (mergeStrLabels [] labs)))
    | some (JVal.obj l0) =>
      pure (dictInsert fields "labels" (.obj (mergeStrLabels l0 labs)))
    | some _ => throw PyErr.attrErr

/-- Lines 208-219: timestamp normalisation, including the uncaught
`OverflowError` described at `convertTs`. -/
def tsStep (now : Int) (packet : List (String × JVal)) :
    Except PyErr (List (String × JVal)) :=
  match dictFind packet "timestamp" with
  | none => pure (dictInsert packet "timestamp" (.int now))
  | some .null => pure (dictInsert packet "timestamp" (.int now))
  | some v =>
    match convertTs v with
    | .val n =>
      pure (dictInsert packet "timestamp"
        (.int (if n < THRESH then n * 1000 else n)))
    | .caught => pure (dictInsert packet "timestamp" (.int now))
    | .overflow => throw PyErr.overflowErr

/-- The record-building part of `_handle_packet` (lines 196-219): start
from the decoded value (or an empty dict when it is not a JSON object),
merge header labels into `packet["labels"]` when any are present, store
the remaining headers under `packet["_envelope"]`, stamp
`packet["_received_at"]`, then normalise `packet["timestamp"]`. -/
def buildPacket (now : Int) (headers : List (String × String)) (value : JVal) :
    Except PyErr (List (String × JVal)) := do
  let packet := match value with | .obj fs => fs | _ => []
  let hs := parsePacketHeaders headers
  let packet ← mergeLabelsStep packet hs.2
  let packet := dictInsert packet "_envelope" (objOfStrDict hs.1)
  let packet := dictInsert packet "_received_at" (.int now)
  tsStep now packet

/-- Per-channel shared state touched by `_handle_packet`: the channel's
SSE subscriber list and its ring buffer (the items of
`packet_queues[channel]`, oldest first). -/
structure PacketState where
  subs : List (SQueue JVal)
  buf : List JVal

/-- `_handle_packet` (lines 195-242).  On an escaped exception the
shared state is unchanged: both raise points precede every mutation of
the subscriber list and the ring buffer. -/
def handlePacket (now : Int) (headers : List (String × String)) (value : JVal)
    (st : PacketState) : Except PyErr PacketState :=
  match buildPacket now headers value with
  | .error e => .error e
  | .ok p =>
    .ok { subs := publishToSubs st.subs (.obj p),
          buf := ringPush MAX_QUEUE_SIZE st.buf (.obj p) }

/-- Shared state touched by the response path: the pending-waiters map
`pending_responses` and the response SSE subscriber list. -/
structure RespState where
  pending : List (String × SQueue JVal)
  subs : List (SQueue JVal)

/-- Python hashability of a decoded JSON value: lists and dicts are
unhashable, so `pending_responses.pop(rid, None)` raises `TypeError`
on them before consulting the map. -/
def hashableVal : JVal → Bool
  | .list _ => false
  | .obj _ => false
  | _ => true

/-- `msg.value if isinstance(msg.value, dict) else {}`. -/
def respFieldsOf (value : JVal) : List (String × JVal) :=
  match value with
  | .obj fs => fs
  | _ => []

/-- `resp.get("request_id", "")` (line 276). -/
def ridOf (value : JVal) : JVal :=
  (dictFind (respFieldsOf value) "request_id").getD (.str "")

/-- Lookup of a decoded request id among the string-keyed pending map:
only a string value can equal a key. -/
def pendingLookup (pending : List (String × SQueue JVal)) (rid : JVal) :
    Option (SQueue JVal) :=
  match rid with
  | .str s => dictFind pending s
  | _ => none

/-- The map after `pending_responses.pop(rid, None)` for a hashable
`rid`. -/
def pendingErase (pending : List (String × SQueue JVal)) (rid : JVal) :
    List (String × SQueue JVal) :=
  match rid with
  | .str s => eraseKey pending s
  | _ => pending

/-- The response dict after `resp["_received_at"] = ...` (line 277). -/
def respOf (now : Int) (value : JVal) : List (String × JVal) :=
  dictInsert (respFieldsOf value) "_received_at" (.int now)

/-- Observable outcome of one `_handle_response` call: the new shared
state, whether a `TypeError` escaped to the consumer loop (`raised`),
the popped waiter after the delivery attempt (when one was found), and
whether that delivery hit the `except queue.Full` branch. -/
structure HRes where
  state : RespState
  raised : Bool
  waiter : Option (SQueue JVal)
  putFull : Bool

/-- `_handle_response` (lines 268-299): read the request id, atomically
pop any pending waiter for it (a `TypeError` on an unhashable id leaves
all shared state untouched), deliver non-blockingly to the waiter if
one was found, then broadcast the envelope to every response SSE
subscriber. -/
def handleResponse (now : Int) (value : JVal) (st : RespState) : HRes :=
  let rid := ridOf value
  if ¬ hashableVal rid then
    { state := st, raised := true, waiter := none, putFull := false }
  else
    let resp := JVal.obj (respOf now value)
    let waiter := pendingLookup st.pending rid
    let pending1 := pendingErase st.pending rid
    match waiter with
    | none =>
      { state := { pending := pending1, subs := publishToSubs st.subs resp },
        raised := false, waiter := none, putFull := false }
    | some q =>
      match putNowait q resp with
      | some q1 =>
        { state := { pending := pending1, subs := publishToSubs st.subs resp },
          raised := false, waiter := some q1, putFull := false }
      | none =>
        { state := { pending := pending1, subs := publishToSubs st.subs resp },
          raised := false, waiter := some q, putFull := true }

/-- `VALID_COMMANDS` (lines 45-48). -/
def VALID_COMMANDS : List String :=
  ["task_create", "task_delete", "task_list", "task_status",
   "config_reload", "daemon_status", "daemon_stats", "daemon_shutdown"]

/-- Python truthiness of a decoded JSON value. -/
def truthy : JVal → Bool
  | .null => false
  | .bool b => b
  | .int n => n != 0
  | .str s => s != ""
  | .list xs => ¬ xs.isEmpty
  | .obj fs => ¬ fs.isEmpty

/-- `body.get(k, default)`. -/
def getField (body : List (String × JVal)) (k : String) (d : JVal) : JVal :=
  (dictFind body k).getD d

/-- `target == "*"` on a decoded JSON value. -/
def isWild : JVal → Bool
  | .str s => s == "*"
  | _ => false

/-- `target in ("uas", "uac", "*")`. -/
def validTarget : JVal → Bool
  | .str s => s == "uas" || s == "uac" || s == "*"
  | _ => false

/-- `command in VALID_COMMANDS`. -/
def validCommand : JVal → Bool
  | .str s => VALID_COMMANDS.contains s
  | _ => false

/-- The JSON reply of `api_command` as the caller observes it: HTTP
status plus the fields of the body the endpoint can emit. -/
structure Reply where
  status : Nat
  ok : Option Bool
  rid : Option String
  err : Option String
  response : Option (List (String × JVal))

/-- How `api_command` leaves its handler before any blocking wait:
either an immediate HTTP reply, or a suspension on the fresh waiter's
single-slot queue (the `resp_queue.get(timeout=...)` call), each
carrying the pending map as the handler left it. -/
inductive Phase1 where
  | reply (r : Reply) (pending : List (String × SQueue JVal))
  | blockOn (rid : String) (pending : List (String × SQueue JVal))

/-- `api_command` (lines 351-406) up to the blocking wait.  `rid` is
the freshly generated `uuid4`, `qid` the identity of the fresh
`Queue(maxsize=1)`, and `pubErr` is `some message` when the Kafka
publish raises `KafkaError`. -/
def apiCommandPhase1 (body : List (String × JVal)) (rid : String) (qid : Nat)
    (pubErr : Option String) (pending : List (String × SQueue JVal)) : Phase1 :=
  let target := getField body "target" (.str "uas")
  let command := getField body "command" (.str "task_list")
  let wait := truthy (getField body "wait" (.bool true))
  if ¬ validTarget target then
    .reply { status := 400, ok := none, rid := none,
             err := some "invalid target", response := none } pending
  else if ¬ validCommand command then
    .reply { status := 400, ok := none, rid := none,
             err := some "unknown command", response := none } pending
  else
    let pending1 :=
      if wait && !isWild target then dictInsert pending rid ⟨qid, 1, []⟩
      else pending
    match pubErr with
    | some e =>
      .reply { status := 500, ok := none, rid := none,
               err := some e, response := none } (eraseKey pending1 rid)
    | none =>
      if !wait || isWild target then
        .reply { status := 200, ok := some true, rid := some rid,
                 err := none, response := none } pending1
      else
        .blockOn rid pending1

/-- `resp.get("error") is None`. -/
def errIsNone (resp : List (String × JVal)) : Bool :=
  match dictFind resp "error" with
  | none => true
  | some .null => true
  | some _ => false

/-- The tail of `api_command` (lines 408-423): the blocked caller either
receives a delivered envelope within the deadline (`delivery`), or the
`queue.Empty` timeout fires, in which case the caller pops its own
still-registered waiter and reports a 504 timeout. -/
def apiCommandAwait (rid : String) (delivery : Option (List (String × JVal)))
    (pending : List (String × SQueue JVal)) :
    Reply × List (String × SQueue JVal) :=
  match delivery with
  | some resp =>
    ({ status := 200, ok := some (errIsNone resp), rid := some rid,
       err := none, response := some resp }, pending)
  | none =>
    ({ status := 504, ok := some false, rid := some rid,
       err := some "timeout waiting for response", response := none },
     eraseKey pending rid)

/-- The events that touch the pending-waiters map or the response
subscriber list: a command request (with its fresh uuid, fresh queue
identity and publish outcome), a caller-side wait timeout, a consumed
response message, and response-stream subscribe/unsubscribe. -/
inductive Ev where
  | apiReq (body : List (String × JVal)) (rid : String) (qid : Nat)
      (pubErr : Option String)
  | apiTimeout (rid : String)
  | respMsg (now : Int) (value : JVal)
  | subscribe (qid cap : Nat)
  | unsub (qid : Nat)

/-- Effect of one event on the shared response-side state. -/
def sysStep (st : RespState) : Ev → RespState
  | .apiReq body rid qid pubErr =>
    match apiCommandPhase1 body rid qid pubErr st.pending with
    | .reply _ p => { st with pending := p }
    | .blockOn _ p => { st with pending := p }
  | .apiTimeout rid => { st with pending := (apiCommandAwait rid none st.pending).2 }
  | .respMsg now value => (handleResponse now value st).state
  | .subscribe qid cap => { st with subs := st.subs ++ [⟨qid, cap, []⟩] }
  | .unsub qid => { st with subs := removeByQid st.subs qid }

/-- Process start: both maps empty (all state is in-memory). -/
def initState : RespState := { pending := [], subs := [] }

/-- States the running hub can actually be in. -/
inductive Reachable : RespState → Prop where
  | init : Reachable initState
  | step (s : RespState) (e : Ev) : Reachable s → Reachable (sysStep s e)

/-- Every registered pending waiter is a fresh single-slot queue:
capacity one and empty. -/
def waiterInv (st : RespState) : Prop :=
  ∀ p ∈ st.pending, p.2.cap = 1 ∧ p.2.items = []

/-- Whether the handler went on to block on the waiter queue. -/
def phase1Blocks : Phase1 → Bool
  | .reply _ _ => false
  | .blockOn _ _ => true

/-- The pending-waiters map as the first phase of `api_command` leaves
it. -/
def phase1Pending : Phase1 → List (String × SQueue JVal)
  | .reply _ p => p
  | .blockOn _ p => p

end Otus

namespace Otus

theorem DBL_OVERFLOW_eq : DBL_OVERFLOW = 2 ^ 1024 - 2 ^ 970 := by
  norm_num [DBL_OVERFLOW]

theorem dictFind_insert {α : Type} (d : List (String × α)) (k k1 : String) (v : α) :
    dictFind (dictInsert d k v) k1 =
      if k = k1 then some v else dictFind d k1 := by
  induction d with
  | nil => simp [dictInsert, dictFind]
  | cons p rest ih =>
    by_cases hp : p.1 = k
    · subst hp
      by_cases hq : p.1 = k1 <;> simp [dictInsert, dictFind, hq]
    · by_cases hq : p.1 = k1
      · subst hq
        simp [dictInsert, dictFind, hp, Ne.symm hp]
      · simp [dictInsert, dictFind, hp, hq, ih]

theorem dictFind_insert_self {α : Type} (d : List (String × α)) (k : String) (v : α) :
    dictFind (dictInsert d k v) k = some v := by
  simp [dictFind_insert]

theorem dictFind_insert_ne {α : Type} (d : List (String × α)) (k k1 : String) (v : α)
    (h : k1 ≠ k) : dictFind (dictInsert d k v) k1 = dictFind d k1 := by
  simp [dictFind_insert, Ne.symm h]

theorem dictFind_eq_none_iff {α : Type} (d : List (String × α)) (k : String) :
    dictFind d k = none ↔ ∀ p ∈ d, p.1 ≠ k := by
  induction d with
  | nil => simp [dictFind]
  | cons p rest ih =>
    by_cases hp : p.1 = k
    · simp [dictFind, hp]
    · simp [dictFind, hp, ih]

theorem dictInsert_of_fresh {α : Type} (d : List (String × α)) (k : String) (v : α)
    (h : dictFind d k = none) : dictInsert d k v = d ++ [(k, v)] := by
  induction d with
  | nil => simp [dictInsert]
  | cons p rest ih =>
    by_cases hp : p.1 = k
    · simp [dictFind, hp] at h
    · simp [dictFind, hp] at h
      simp [dictInsert, hp, ih h]

theorem eraseKey_of_fresh {α : Type} (d : List (String × α)) (k : String)
    (h : dictFind d k = none) : eraseKey d k = d := by
  have hall := (dictFind_eq_none_iff d k).mp h
  unfold eraseKey
  apply List.filter_eq_self.mpr
  intro p hp
  simpa using hall p hp

theorem dictFind_eraseKey_self {α : Type} (d : List (String × α)) (k : String) :
    dictFind (eraseKey d k) k = none := by
  apply (dictFind_eq_none_iff _ _).mpr
  intro p hp
  have hmem := List.of_mem_filter hp
  simpa using hmem

theorem eraseKey_insert_fresh {α : Type} (d : List (String × α)) (k : String) (v : α)
    (h : dictFind d k = none) : eraseKey (dictInsert d k v) k = d := by
  have h1 : eraseKey (d ++ [(k, v)]) k = eraseKey d k ++ eraseKey [(k, v)] k := by
    simp [eraseKey]
  rw [dictInsert_of_fresh d k v h, h1, eraseKey_of_fresh d k h]
  simp [eraseKey]

theorem mem_dictInsert {α : Type} (d : List (String × α)) (k : String) (v : α)
    (p : String × α) (h : p ∈ dictInsert d k v) : p = (k, v) ∨ p ∈ d := by
  induction d with
  | nil => simpa [dictInsert] using h
  | cons q rest ih =>
    by_cases hq : q.1 = k
    · rw [show dictInsert (q :: rest) k v = (q.1, v) :: rest from by
        simp [dictInsert, hq]] at h
      rcases List.mem_cons.mp h with h1 | h1
      · left
        rw [h1, hq]
      · right
        exact List.mem_cons_of_mem _ h1
    · rw [show dictInsert (q :: rest) k v = q :: dictInsert rest k v from by
        simp [dictInsert, hq]] at h
      rcases List.mem_cons.mp h with h1 | h1
      · right
        simp [h1]
      · rcases ih h1 with h2 | h2
        · left
          exact h2
        · right
          exact List.mem_cons_of_mem _ h2

theorem mem_eraseKey {α : Type} (d : List (String × α)) (k : String)
    (p : String × α) (h : p ∈ eraseKey d k) : p ∈ d :=
  List.mem_of_mem_filter h

theorem dictFind_mem {α : Type} (d : List (String × α)) (k : String) (v : α)
    (h : dictFind d k = some v) : (k, v) ∈ d := by
  induction d with
  | nil => simp [dictFind] at h
  | cons p rest ih =>
    by_cases hp : p.1 = k
    · simp [dictFind, hp] at h
      simp [← hp, ← h]
    · simp [dictFind, hp] at h
      simp [ih h]

theorem foldl_ringPush_drop {α : Type} (C : Nat) (hC : 0 < C) :
    ∀ (l b : List α), b.length ≤ C →
      List.foldl (ringPush C) b l = (b ++ l).drop (b.length + l.length - C) := by
  intro l
  induction l with
  | nil =>
    intro b hb
    simp [Nat.sub_eq_zero_of_le hb]
  | cons x l ih =>
    intro b hb
    have hstep : List.foldl (ringPush C) b (x :: l) =
        List.foldl (ringPush C) (ringPush C b x) l := rfl
    by_cases hfull : C ≤ b.length
    · have hlen : b.length = C := Nat.le_antisymm hb hfull
      have hb1 : ringPush C b x = b.drop 1 ++ [x] := by
        unfold ringPush ringPut
        rw [if_pos hfull, if_neg (by simp only [List.length_drop]; omega)]
      have hlen1 : (b.drop 1 ++ [x]).length = C := by
        simp only [List.length_append, List.length_drop, List.length_cons,
          List.length_nil]
        omega
      rw [hstep, hb1, ih _ (Nat.le_of_eq hlen1), hlen1]
      have harith : C + l.length - C = l.length := by omega
      rw [harith]
      have hone : (1 : Nat) ≤ b.length := by omega
      have hsplit : (b ++ x :: l).drop 1 = b.drop 1 ++ x :: l :=
        List.drop_append_of_le_length hone
      have hcomp : ((b ++ x :: l).drop 1).drop l.length =
          (b ++ x :: l).drop (1 + l.length) := List.drop_drop l.length 1 _
      have harith2 : b.length + (x :: l).length - C = 1 + l.length := by
        simp only [List.length_cons]
        omega
      rw [harith2, ← hcomp, hsplit, List.append_assoc]
      simp
    · have hb1 : ringPush C b x = b ++ [x] := by
        unfold ringPush ringPut
        rw [if_neg hfull, if_neg hfull]
      have hlen1 : (b ++ [x]).length ≤ C := by
        simp only [List.length_append, List.length_cons, List.length_nil]
        omega
      rw [hstep, hb1, ih _ hlen1]
      have harith : (b ++ [x]).length + l.length - C =
          b.length + (x :: l).length - C := by
        simp only [List.length_append, List.length_cons, List.length_nil]
        omega
      rw [harith, List.append_assoc]
      simp

/-- C2: the per-channel ring buffer has fixed capacity 500; on each
overflow exactly the single oldest record is evicted before the insert,
and after inserting more than `C` records into an initially empty
buffer it holds exactly the last `C` records in arrival order. -/
theorem ring_buffer_keeps_last_C :
    MAX_QUEUE_SIZE = 500 ∧
    (∀ (C : Nat) (buf : List JVal) (x : JVal), 0 < C → buf.length = C →
      ringPush C buf x = buf.drop 1 ++ [x]) ∧
    (∀ (C : Nat) (l : List JVal), 0 < C → C < l.length →
      List.foldl (ringPush C) [] l = l.drop (l.length - C)) := by
  refine ⟨rfl, ?_, ?_⟩
  · intro C buf x hC hlen
    have hfull : C ≤ buf.length := Nat.le_of_eq hlen.symm
    unfold ringPush ringPut
    rw [if_pos hfull, if_neg (by simp only [List.length_drop]; omega)]
  · intro C l hC hlt
    have h := foldl_ringPush_drop C hC l [] (by simp)
    simpa using h

/-- C2 witness: capacity 2, five inserts, buffer holds the last two in
order. -/
theorem ring_buffer_keeps_last_C_witness :
    (0 : Nat) < 2 ∧ (2 : Nat) < 5 ∧
    List.foldl (ringPush 2) []
      [JVal.int 1, JVal.int 2, JVal.int 3, JVal.int 4, JVal.int 5] =
      [JVal.int 4, JVal.int 5] := by
  refine ⟨by decide, by decide, ?_⟩
  have h := ring_buffer_keeps_last_C.2.2 2
    [JVal.int 1, JVal.int 2, JVal.int 3, JVal.int 4, JVal.int 5]
    (by decide) (by decide)
  simpa using h


/-- C3: timestamp normalization follows the documented substitution on
the claim's examples, but an infinite numeric string such as `"inf"`
makes `int(float("inf"))` raise `OverflowError`, which the
`except (ValueError, TypeError)` clause does not catch: contrary to the
code's own comment ("Falls back to _received_at if the value is
unusable") and to the claim, the record is dropped by the consumer
loop instead of being normalized to the receipt time. -/
theorem timestamp_normalization_overflow_bug :
    buildPacket 9999 [] (.obj [("timestamp", .int 1700000000)]) =
      .ok [("timestamp", .int 1700000000000), ("_envelope", .obj []),
           ("_received_at", .int 9999)] ∧
    buildPacket 9999 [] (.obj [("timestamp", .int 1700000000000)]) =
      .ok [("timestamp", .int 1700000000000), ("_envelope", .obj []),
           ("_received_at", .int 9999)] ∧
    buildPacket 9999 [] (.obj [("timestamp", .str "not-a-number")]) =
      .ok [("timestamp", .int 9999), ("_envelope", .obj []),
           ("_received_at", .int 9999)] ∧
    buildPacket 9999 [] (.obj []) =
      .ok [("_envelope", .obj []), ("_received_at", .int 9999),
           ("timestamp", .int 9999)] ∧
    handlePacket 9999 [] (.obj [("timestamp", .str "inf")])
      { subs := [], buf := [] } = .error .overflowErr := by
  exact ⟨rfl, rfl, rfl, rfl, rfl⟩

/-- C6: the deadline constant is 30 s, and a caller whose wait expires
with no delivery receives a 504 timeout failure — shaped differently
from a node-reported error, which is delivered as a 200 reply carrying
the envelope — and itself removes its entry, so the waiter map no
longer contains the request id afterwards. -/
theorem timeout_failure_removes_waiter (rid : String)
    (pending : List (String × SQueue JVal)) :
    RESPONSE_TIMEOUT_S = 30 ∧
    (apiCommandAwait rid none pending).1 =
      { status := 504, ok := some false, rid := some rid,
        err := some "timeout waiting for response", response := none } ∧
    dictFind (apiCommandAwait rid none pending).2 rid = none ∧
    (∀ resp, (apiCommandAwait rid (some resp) pending).1.status = 200 ∧
      (apiCommandAwait rid (some resp) pending).2 = pending) := by
  refine ⟨rfl, rfl, ?_, ?_⟩
  · exact dictFind_eraseKey_self pending rid
  · intro resp
    exact ⟨rfl, rfl⟩

/-- C4: a command request with a falsy `wait` or a wildcard target
never registers a waiter (the pending map is returned unchanged) and
never reaches the blocking wait; on the validated, successfully
published path it replies 200 with the generated request id. -/
theorem no_wait_or_wildcard_immediate (body : List (String × JVal)) (rid : String)
    (qid : Nat) (pubErr : Option String) (pending : List (String × SQueue JVal))
    (hcase : truthy (getField body "wait" (.bool true)) = false ∨
      isWild (getField body "target" (.str "uas")) = true)
    (hfresh : dictFind pending rid = none) :
    phase1Blocks (apiCommandPhase1 body rid qid pubErr pending) = false ∧
    phase1Pending (apiCommandPhase1 body rid qid pubErr pending) = pending ∧
    (pubErr = none → validTarget (getField body "target" (.str "uas")) = true →
      validCommand (getField body "command" (.str "task_list")) = true →
      apiCommandPhase1 body rid qid pubErr pending =
        .reply { status := 200, ok := some true, rid := some rid,
                 err := none, response := none } pending) := by
  have hpend1 : (if truthy (getField body "wait" (.bool true)) &&
      !isWild (getField body "target" (.str "uas")) then
      dictInsert pending rid ⟨qid, 1, []⟩ else pending) = pending := by
    rcases hcase with h | h <;> simp [h]
  have hgo : (!truthy (getField body "wait" (.bool true)) ||
      isWild (getField body "target" (.str "uas"))) = true := by
    rcases hcase with h | h <;> simp [h]
  by_cases hvt : validTarget (getField body "target" (.str "uas")) = true
  · by_cases hvc : validCommand (getField body "command" (.str "task_list")) = true
    · cases pubErr with
      | some e =>
        have hres : apiCommandPhase1 body rid qid (some e) pending =
            .reply { status := 500, ok := none, rid := none,
                     err := some e, response := none } pending := by
          simp only [apiCommandPhase1, hvt, hvc, hpend1]
          simp [eraseKey_of_fresh pending rid hfresh]
        refine ⟨by simp [hres, phase1Blocks], by simp [hres, phase1Pending], ?_⟩
        intro hno
        exact absurd hno (by simp)
      | none =>
        have hres : apiCommandPhase1 body rid qid none pending =
            .reply { status := 200, ok := some true, rid := some rid,
                     err := none, response := none } pending := by
          simp only [apiCommandPhase1, hvt, hvc, hpend1]
          simp [hgo]
        exact ⟨by simp [hres, phase1Blocks], by simp [hres, phase1Pending],
          fun _ _ _ => hres⟩
    · have hres : apiCommandPhase1 body rid qid pubErr pending =
          .reply { status := 400, ok := none, rid := none,
                   err := some "unknown command", response := none } pending := by
        simp [apiCommandPhase1, hvt, hvc]
      exact ⟨by simp [hres, phase1Blocks], by simp [hres, phase1Pending],
        fun _ _ h => absurd h hvc⟩
  · have hres : apiCommandPhase1 body rid qid pubErr pending =
        .reply { status := 400, ok := none, rid := none,
                 err := some "invalid target", response := none } pending := by
      simp [apiCommandPhase1, hvt]
    exact ⟨by simp [hres, phase1Blocks], by simp [hres, phase1Pending],
      fun _ h _ => absurd h hvt⟩

/-- C4 witness: `wait=false` on an empty pending map replies
immediately with the request id and registers nothing. -/
theorem no_wait_or_wildcard_immediate_witness :
    truthy (getField [("wait", JVal.bool false)] "wait" (.bool true)) = false ∧
    dictFind ([] : List (String × SQueue JVal)) "r1" = none ∧
    phase1Blocks (apiCommandPhase1 [("wait", JVal.bool false)] "r1" 0 none []) = false ∧
    phase1Pending (apiCommandPhase1 [("wait", JVal.bool false)] "r1" 0 none []) = [] ∧
    apiCommandPhase1 [("wait", JVal.bool false)] "r1" 0 none [] =
      .reply { status := 200, ok := some true, rid := some "r1",
               err := none, response := none } [] := by
  have h := no_wait_or_wildcard_immediate [("wait", JVal.bool false)] "r1" 0 none []
    (Or.inl rfl) rfl
  exact ⟨rfl, rfl, h.1, h.2.1, h.2.2 rfl rfl rfl⟩

/-- C5: on a waited, targeted send whose publish raises `KafkaError`,
the endpoint replies 500 with the error synchronously and pops the
waiter it just registered, leaving the pending map exactly as it was
before the request. -/
theorem publish_failure_unregisters_waiter (body : List (String × JVal))
    (rid : String) (qid : Nat) (e : String)
    (pending : List (String × SQueue JVal))
    (hw : truthy (getField body "wait" (.bool true)) = true)
    (hnw : isWild (getField body "target" (.str "uas")) = false)
    (hvt : validTarget (getField body "target" (.str "uas")) = true)
    (hvc : validCommand (getField body "command" (.str "task_list")) = true)
    (hfresh : dictFind pending rid = none) :
    apiCommandPhase1 body rid qid (some e) pending =
      .reply { status := 500, ok := none, rid := none,
               err := some e, response := none } pending := by
  have h1 : (truthy (getField body "wait" (.bool true)) &&
      !isWild (getField body "target" (.str "uas"))) = true := by
    simp [hw, hnw]
  simp only [apiCommandPhase1, hvt, hvc, h1]
  simp [eraseKey_insert_fresh pending rid _ hfresh]

/-- C5 witness: a waited `task_list` to `uac` whose publish fails
replies 500 and leaves the (empty) pending map unchanged. -/
theorem publish_failure_unregisters_waiter_witness :
    truthy (getField [("target", JVal.str "uac")] "wait" (.bool true)) = true ∧
    isWild (getField [("target", JVal.str "uac")] "target" (.str "uas")) = false ∧
    validTarget (getField [("target", JVal.str "uac")] "target" (.str "uas")) = true ∧
    validCommand (getField [("target", JVal.str "uac")] "command" (.str "task_list")) = true ∧
    apiCommandPhase1 [("target", JVal.str "uac")] "r2" 3 (some "broker down") [] =
      .reply { status := 500, ok := none, rid := none,
               err := some "broker down", response := none } [] := by
  refine ⟨rfl, rfl, rfl, rfl, ?_⟩
  exact publish_failure_unregisters_waiter [("target", JVal.str "uac")]
    "r2" 3 "broker down" [] rfl rfl rfl rfl rfl

theorem putNowait_qid {α : Type} (q : SQueue α) (x : α) (q1 : SQueue α)
    (h : putNowait q x = some q1) :
    q1.qid = q.qid ∧ q1.cap = q.cap ∧ q1.items = q.items ++ [x] := by
  unfold putNowait at h
  by_cases hf : q.cap ≤ q.items.length
  · simp [hf] at h
  · simp [hf] at h
    rw [← h]
    exact ⟨rfl, rfl, rfl⟩

theorem putNowait_eq_none_iff {α : Type} (q : SQueue α) (x : α) :
    putNowait q x = none ↔ isFull q = true := by
  unfold putNowait isFull
  by_cases hf : q.cap ≤ q.items.length <;> simp [hf]

theorem putNowait_not_full {α : Type} (q : SQueue α) (x : α)
    (h : isFull q = false) :
    putNowait q x = some { q with items := q.items ++ [x] } := by
  unfold isFull at h
  unfold putNowait
  simp at h
  rw [if_neg (by omega)]

theorem qid_inj {α : Type} (subs : List (SQueue α))
    (hn : (subs.map SQueue.qid).Nodup) :
    ∀ q ∈ subs, ∀ q1 ∈ subs, q.qid = q1.qid → q = q1 := by
  induction subs with
  | nil => simp
  | cons a rest ih =>
    simp only [List.map_cons, List.nodup_cons] at hn
    intro q hq q1 hq1 heq
    rcases List.mem_cons.mp hq with h1 | h1 <;> rcases List.mem_cons.mp hq1 with h2 | h2
    · rw [h1, h2]
    · exfalso
      apply hn.1
      rw [show a.qid = q1.qid from by rw [← h1, heq]]
      exact List.mem_map_of_mem _ h2
    · exfalso
      apply hn.1
      rw [show a.qid = q.qid from by rw [← h2, ← heq]]
      exact List.mem_map_of_mem _ h1
    · exact ih hn.2 q h1 q1 h2 heq

theorem foldl_removeByQid_cons {α : Type} (ids : List Nat)
    (subs : List (SQueue α)) (q : SQueue α) (h : q.qid ∉ ids) :
    ids.foldl removeByQid (q :: subs) = q :: ids.foldl removeByQid subs := by
  induction ids generalizing subs with
  | nil => rfl
  | cons i ids ih =>
    simp only [List.mem_cons] at h
    push_neg at h
    simp only [List.foldl_cons]
    rw [show removeByQid (q :: subs) i = q :: removeByQid subs i from by
      simp [removeByQid, h.1]]
    exact ih (removeByQid subs i) h.2

theorem deadIds_sub {α : Type} (subs : List (SQueue α)) (i : Nat)
    (h : i ∈ ((subs.filter (fun q => isFull q)).map (fun q => q.qid))) :
    i ∈ subs.map SQueue.qid := by
  obtain ⟨q, hq, rfl⟩ := List.mem_map.mp h
  exact List.mem_map_of_mem _ (List.mem_of_mem_filter hq)

theorem publishToSubs_eq_filterMap {α : Type} (subs : List (SQueue α)) (x : α)
    (hn : (subs.map SQueue.qid).Nodup) :
    publishToSubs subs x = subs.filterMap (fun q => putNowait q x) := by
  induction subs with
  | nil => rfl
  | cons q rest ih =>
    simp only [List.map_cons, List.nodup_cons] at hn
    by_cases hf : isFull q = true
    · have hput : putNowait q x = none := (putNowait_eq_none_iff q x).mpr hf
      have hmap : (q :: rest).map
          (fun q => match putNowait q x with | some q1 => q1 | none => q) =
          q :: rest.map
            (fun q => match putNowait q x with | some q1 => q1 | none => q) := by
        simp [hput]
      have hdead : ((q :: rest).filter (fun q => isFull q)).map (fun q => q.qid) =
          q.qid :: ((rest.filter (fun q => isFull q)).map (fun q => q.qid)) := by
        simp [hf]
      unfold publishToSubs pushAll
      rw [hmap, hdead]
      simp only [List.foldl_cons]
      rw [show removeByQid
          (q :: rest.map
            (fun q => match putNowait q x with | some q1 => q1 | none => q))
          q.qid =
          rest.map (fun q => match putNowait q x with | some q1 => q1 | none => q)
        from by simp [removeByQid]]
      have hrest : publishToSubs rest x = rest.filterMap (fun q => putNowait q x) :=
        ih hn.2
      unfold publishToSubs pushAll at hrest
      rw [hrest]
      simp [List.filterMap_cons, hput]
    · have hfneg : isFull q = false := by
        cases hisf : isFull q
        · rfl
        · exact absurd hisf hf
      have hput : putNowait q x = some { q with items := q.items ++ [x] } :=
        putNowait_not_full q x hfneg
      have hmap : (q :: rest).map
          (fun q => match putNowait q x with | some q1 => q1 | none => q) =
          { q with items := q.items ++ [x] } :: rest.map
            (fun q => match putNowait q x with | some q1 => q1 | none => q) := by
        simp [hput]
      have hdead : ((q :: rest).filter (fun q => isFull q)).map (fun q => q.qid) =
          (rest.filter (fun q => isFull q)).map (fun q => q.qid) := by
        simp [hfneg]
      unfold publishToSubs pushAll
      rw [hmap, hdead]
      have hnotmem : ({ q with items := q.items ++ [x] } : SQueue α).qid ∉
          (rest.filter (fun q => isFull q)).map (fun q => q.qid) := by
        intro hmem
        exact hn.1 (deadIds_sub rest _ hmem)
      rw [foldl_removeByQid_cons _ _ _ hnotmem]
      have hrest : publishToSubs rest x = rest.filterMap (fun q => putNowait q x) :=
        ih hn.2
      unfold publishToSubs pushAll at hrest
      rw [hrest]
      simp [List.filterMap_cons, hput]

theorem publish_qids_sublist {α : Type} (subs : List (SQueue α)) (x : α) :
    List.Sublist ((subs.filterMap (fun q => putNowait q x)).map SQueue.qid)
      (subs.map SQueue.qid) := by
  induction subs with
  | nil => simp
  | cons q rest ih =>
    cases hput : putNowait q x with
    | none =>
      simp only [List.filterMap_cons, hput, List.map_cons]
      exact ih.cons q.qid
    | some q1 =>
      have hq : q1.qid = q.qid := (putNowait_qid q x q1 hput).1
      simp only [List.filterMap_cons, hput, List.map_cons, hq]
      exact ih.cons₂ q.qid

theorem publish_qids_nodup {α : Type} (subs : List (SQueue α)) (x : α)
    (hn : (subs.map SQueue.qid).Nodup) :
    ((publishToSubs subs x).map SQueue.qid).Nodup := by
  rw [publishToSubs_eq_filterMap subs x hn]
  exact List.Sublist.nodup (publish_qids_sublist subs x) hn

theorem foldl_publish_trace {α : Type} (xs : List α) :
    ∀ (subs : List (SQueue α)), (subs.map SQueue.qid).Nodup →
      ∀ q1 ∈ List.foldl publishToSubs subs xs,
        ∃ q ∈ subs, q1.qid = q.qid ∧ q1.cap = q.cap ∧
          q1.items = q.items ++ xs := by
  induction xs with
  | nil =>
    intro subs hn q1 h
    exact ⟨q1, h, rfl, rfl, by simp⟩
  | cons x xs ih =>
    intro subs hn q1 h
    have hn1 := publish_qids_nodup subs x hn
    obtain ⟨q2, hq2mem, hqid, hcap, hitems⟩ :=
      ih (publishToSubs subs x) hn1 q1 h
    rw [publishToSubs_eq_filterMap subs x hn] at hq2mem
    obtain ⟨q, hqmem, hput⟩ := List.mem_filterMap.mp hq2mem
    obtain ⟨hqid2, hcap2, hitems2⟩ := putNowait_qid q x q2 hput
    refine ⟨q, hqmem, by rw [hqid, hqid2], by rw [hcap, hcap2], ?_⟩
    rw [hitems, hitems2, List.append_assoc]
    simp

/-- C7: in one publish cycle every queue found full is removed from the
subscriber set and the item is dropped for it, every other registered
queue receives the item; and across any sequence of publishes a queue
still registered has received every published item in order after its
previous content (per-subscriber FIFO). -/
theorem publish_drops_full_delivers_rest (subs : List (SQueue JVal)) (x : JVal)
    (hn : (subs.map SQueue.qid).Nodup) :
    publishToSubs subs x = subs.filterMap (fun q => putNowait q x) ∧
    (∀ q ∈ subs, isFull q = true →
      ∀ q1 ∈ publishToSubs subs x, q1.qid ≠ q.qid) ∧
    (∀ q ∈ subs, isFull q = false →
      { q with items := q.items ++ [x] } ∈ publishToSubs subs x) ∧
    (∀ (xs : List JVal) (q1 : SQueue JVal),
      q1 ∈ List.foldl publishToSubs subs xs →
      ∃ q ∈ subs, q1.qid = q.qid ∧ q1.items = q.items ++ xs) := by
  refine ⟨publishToSubs_eq_filterMap subs x hn, ?_, ?_, ?_⟩
  · intro q hq hfull q1 hq1 heq
    rw [publishToSubs_eq_filterMap subs x hn] at hq1
    obtain ⟨q2, hq2, hput⟩ := List.mem_filterMap.mp hq1
    have hqid : q2.qid = q.qid := by
      rw [← (putNowait_qid q2 x q1 hput).1, heq]
    have hq2q : q2 = q := qid_inj subs hn q2 hq2 q hq hqid
    subst hq2q
    rw [(putNowait_eq_none_iff q2 x).mpr hfull] at hput
    exact Option.noConfusion hput
  · intro q hq hnf
    rw [publishToSubs_eq_filterMap subs x hn]
    exact List.mem_filterMap.mpr ⟨q, hq, putNowait_not_full q x hnf⟩
  · intro xs q1 h
    obtain ⟨q, hq, h1, _, h3⟩ := foldl_publish_trace xs subs hn q1 h
    exact ⟨q, hq, h1, h3⟩

/-- C7 witness: two subscribers, one already full; the full one is
removed within the publish cycle, the other receives the item. -/
theorem publish_drops_full_delivers_rest_witness :
    (([⟨0, 1, []⟩, ⟨1, 1, [JVal.int 9]⟩] : List (SQueue JVal)).map
      SQueue.qid).Nodup ∧
    publishToSubs ([⟨0, 1, []⟩, ⟨1, 1, [JVal.int 9]⟩] : List (SQueue JVal))
      (JVal.int 5) = [⟨0, 1, [JVal.int 5]⟩] ∧
    (∀ q ∈ ([⟨0, 1, []⟩, ⟨1, 1, [JVal.int 9]⟩] : List (SQueue JVal)),
      isFull q = true →
      ∀ q1 ∈ publishToSubs ([⟨0, 1, []⟩, ⟨1, 1, [JVal.int 9]⟩] :
          List (SQueue JVal)) (JVal.int 5), q1.qid ≠ q.qid) := by
  have hn : (([⟨0, 1, []⟩, ⟨1, 1, [JVal.int 9]⟩] : List (SQueue JVal)).map
      SQueue.qid).Nodup := by decide
  exact ⟨hn, rfl, (publish_drops_full_delivers_rest _ _ hn).2.1⟩

theorem handleResponse_unhashable (now : Int) (value : JVal) (st : RespState)
    (hh : hashableVal (ridOf value) = false) :
    handleResponse now value st =
      { state := st, raised := true, waiter := none, putFull := false } := by
  simp only [handleResponse]
  rw [if_pos (by simp [hh])]

theorem handleResponse_unmatched (now : Int) (value : JVal) (st : RespState)
    (hh : hashableVal (ridOf value) = true)
    (hm : pendingLookup st.pending (ridOf value) = none) :
    handleResponse now value st =
      { state := { pending := pendingErase st.pending (ridOf value),
                   subs := publishToSubs st.subs (.obj (respOf now value)) },
        raised := false, waiter := none, putFull := false } := by
  simp only [handleResponse]
  rw [if_neg (by simp [hh]), hm]

theorem handleResponse_not_raised_subs (now : Int) (value : JVal) (st : RespState)
    (hh : hashableVal (ridOf value) = true) :
    (handleResponse now value st).raised = false ∧
    (handleResponse now value st).state.subs =
      publishToSubs st.subs (.obj (respOf now value)) ∧
    (handleResponse now value st).state.pending =
      pendingErase st.pending (ridOf value) := by
  simp only [handleResponse]
  rw [if_neg (by simp [hh])]
  split
  · exact ⟨rfl, rfl, rfl⟩
  · split
    · exact ⟨rfl, rfl, rfl⟩
    · exact ⟨rfl, rfl, rfl⟩

theorem mem_pendingErase (pending : List (String × SQueue JVal)) (rid : JVal)
    (p : String × SQueue JVal) (h : p ∈ pendingErase pending rid) :
    p ∈ pending := by
  unfold pendingErase at h
  cases rid
  case str s => exact mem_eraseKey _ _ _ h
  all_goals exact h

/-- C1 counterexample: the claim quantifies over every envelope whose
request id matches no waiter, but an envelope whose `request_id` is a
JSON list is unhashable: `pending_responses.pop(rid, None)` raises
`TypeError` (absorbed by the consumer loop) and the envelope is never
broadcast — the registered, non-full subscriber queue stays empty. -/
theorem unmatched_response_counterexample :
    (handleResponse 7 (.obj [("request_id", .list [])])
      { pending := [], subs := [⟨0, 5, []⟩] }).raised = true ∧
    (handleResponse 7 (.obj [("request_id", .list [])])
      { pending := [], subs := [⟨0, 5, []⟩] }).state.subs = [⟨0, 5, []⟩] :=
  ⟨rfl, rfl⟩

/-- C1 amended: for every consumed response envelope whose request id
is hashable (not a JSON list or object — in particular a missing
request_id, which defaults to the empty string) and matches no
registered waiter, the handler raises no error, delivers to no waiter,
and still broadcasts the envelope to every registered response-stream
subscriber queue that is not full. -/
theorem unmatched_hashable_response_broadcast (now : Int) (value : JVal)
    (st : RespState)
    (hh : hashableVal (ridOf value) = true)
    (hm : pendingLookup st.pending (ridOf value) = none)
    (hn : (st.subs.map SQueue.qid).Nodup) :
    (handleResponse now value st).raised = false ∧
    (handleResponse now value st).waiter = none ∧
    (handleResponse now value st).state.subs =
      publishToSubs st.subs (.obj (respOf now value)) ∧
    (∀ q ∈ st.subs, isFull q = false →
      { q with items := q.items ++ [JVal.obj (respOf now value)] } ∈
        (handleResponse now value st).state.subs) := by
  rw [handleResponse_unmatched now value st hh hm]
  refine ⟨rfl, rfl, rfl, ?_⟩
  intro q hq hnf
  show { q with items := q.items ++ [JVal.obj (respOf now value)] } ∈
    publishToSubs st.subs (JVal.obj (respOf now value))
  rw [publishToSubs_eq_filterMap st.subs _ hn]
  exact List.mem_filterMap.mpr ⟨q, hq, putNowait_not_full q _ hnf⟩

/-- C1 witness: a response with an unknown request id, one unrelated
pending waiter and one empty subscriber queue: no error, no waiter
delivery, envelope enqueued to the subscriber. -/
theorem unmatched_hashable_response_broadcast_witness :
    (handleResponse 0 (.obj [("request_id", .str "nobody")])
      { pending := [("other", ⟨1, 1, []⟩)], subs := [⟨0, 2, []⟩] }).raised
        = false ∧
    (handleResponse 0 (.obj [("request_id", .str "nobody")])
      { pending := [("other", ⟨1, 1, []⟩)], subs := [⟨0, 2, []⟩] }).waiter
        = none ∧
    (handleResponse 0 (.obj [("request_id", .str "nobody")])
      { pending := [("other", ⟨1, 1, []⟩)], subs := [⟨0, 2, []⟩] }).state.subs =
      publishToSubs [⟨0, 2, []⟩]
        (.obj (respOf 0 (.obj [("request_id", .str "nobody")]))) ∧
    (∀ q ∈ ([⟨0, 2, []⟩] : List (SQueue JVal)), isFull q = false →
      { q with items := q.items ++
          [JVal.obj (respOf 0 (.obj [("request_id", .str "nobody")]))] } ∈
        (handleResponse 0 (.obj [("request_id", .str "nobody")])
          { pending := [("other", ⟨1, 1, []⟩)],
            subs := [⟨0, 2, []⟩] }).state.subs) :=
  unmatched_hashable_response_broadcast 0 _ _ rfl rfl (by decide)

/-- C10: a consumed message whose decoded value is not a JSON object is
replaced by an empty record in both handlers, with no exception: the
packet path still normalizes it (receipt-time stamps, only the
bookkeeping keys), broadcasts it to the channel subscribers and inserts
it into the ring buffer, and the response path broadcasts the enriched
empty record to the response subscribers. -/
theorem non_object_value_substituted (now : Int)
    (headers : List (String × String)) (value : JVal) (st : PacketState)
    (rst : RespState) (hv : ∀ fs, value ≠ JVal.obj fs) :
    (∃ p, buildPacket now headers value = .ok p ∧
      handlePacket now headers value st =
        .ok { subs := publishToSubs st.subs (.obj p),
              buf := ringPush MAX_QUEUE_SIZE st.buf (.obj p) } ∧
      dictFind p "timestamp" = some (.int now) ∧
      dictFind p "_received_at" = some (.int now) ∧
      (∀ q ∈ p, q.1 = "labels" ∨ q.1 = "_envelope" ∨
        q.1 = "_received_at" ∨ q.1 = "timestamp")) ∧
    (handleResponse now value rst).raised = false ∧
    (handleResponse now value rst).state.subs =
      publishToSubs rst.subs (.obj (respOf now value)) ∧
    respOf now value = [("_received_at", .int now)] := by
  have hfs : respFieldsOf value = [] := by
    cases value
    case obj fs => exact absurd rfl (hv fs)
    all_goals rfl
  have hrid : ridOf value = .str "" := by
    simp [ridOf, hfs, dictFind]
  have hresp := handleResponse_not_raised_subs now value rst (by simp [hrid, hashableVal])
  refine ⟨?_, hresp.1, hresp.2.1, by simp [respOf, hfs, dictInsert]⟩
  have hmatch : (match value with | JVal.obj fs => fs | _ => []) =
      ([] : List (String × JVal)) := by
    cases value
    case obj fs => exact absurd rfl (hv fs)
    all_goals rfl
  set labs := (parsePacketHeaders headers).2 with hlabs
  set env := (parsePacketHeaders headers).1 with henv
  by_cases hemp : labs.isEmpty = true
  · refine ⟨[("_envelope", objOfStrDict env), ("_received_at", .int now),
      ("timestamp", .int now)], ?_, ?_, by simp [dictFind], by simp [dictFind], ?_⟩
    · simp only [buildPacket, mergeLabelsStep, hmatch, ← hlabs, ← henv, hemp]
      rfl
    · unfold handlePacket
      simp only [buildPacket, mergeLabelsStep, hmatch, ← hlabs, ← henv, hemp]
      rfl
    · intro q hq
      simp only [List.mem_cons, List.mem_singleton] at hq
      rcases hq with h | h | h | h
      · right; left; rw [h]
      · right; right; left; rw [h]
      · right; right; right; rw [h]
      · simp at h
  · have hemp2 : labs.isEmpty = false := by
      cases h2 : labs.isEmpty
      · rfl
      · exact absurd h2 hemp
    refine ⟨[("labels", .obj (mergeStrLabels [] labs)),
      ("_envelope", objOfStrDict env), ("_received_at", .int now),
      ("timestamp", .int now)], ?_, ?_, by simp [dictFind], by simp [dictFind], ?_⟩
    · simp only [buildPacket, mergeLabelsStep, hmatch, ← hlabs, ← henv, hemp2]
      rfl
    · unfold handlePacket
      simp only [buildPacket, mergeLabelsStep, hmatch, ← hlabs, ← henv, hemp2]
      rfl
    · intro q hq
      simp only [List.mem_cons, List.mem_singleton] at hq
      rcases hq with h | h | h | h | h
      · left; rw [h]
      · right; left; rw [h]
      · right; right; left; rw [h]
      · right; right; right; rw [h]
      · simp at h

/-- C10 witness: a bare JSON number as message value. -/
theorem non_object_value_substituted_witness :
    (∃ p, buildPacket 5 [] (.int 42) = .ok p ∧
      handlePacket 5 [] (.int 42) { subs := [], buf := [] } =
        .ok { subs := publishToSubs [] (.obj p),
              buf := ringPush MAX_QUEUE_SIZE [] (.obj p) } ∧
      dictFind p "timestamp" = some (.int 5) ∧
      dictFind p "_received_at" = some (.int 5) ∧
      (∀ q ∈ p, q.1 = "labels" ∨ q.1 = "_envelope" ∨
        q.1 = "_received_at" ∨ q.1 = "timestamp")) ∧
    (handleResponse 5 (.int 42) { pending := [], subs := [] }).raised = false ∧
    (handleResponse 5 (.int 42) { pending := [], subs := [] }).state.subs =
      publishToSubs [] (.obj (respOf 5 (.int 42))) ∧
    respOf 5 (.int 42) = [("_received_at", .int 5)] :=
  non_object_value_substituted 5 [] (.int 42) _ _ (fun _ h => JVal.noConfusion h)

theorem handleResponse_matched (now : Int) (value : JVal) (st : RespState)
    (q : SQueue JVal)
    (hh : hashableVal (ridOf value) = true)
    (hm : pendingLookup st.pending (ridOf value) = some q)
    (q1 : SQueue JVal)
    (hput : putNowait q (JVal.obj (respOf now value)) = some q1) :
    handleResponse now value st =
      { state := { pending := pendingErase st.pending (ridOf value),
                   subs := publishToSubs st.subs (.obj (respOf now value)) },
        raised := false, waiter := some q1, putFull := false } := by
  simp only [handleResponse]
  rw [if_neg (by simp [hh])]
  split
  next heq =>
    rw [hm] at heq
    exact Option.noConfusion heq
  next q2 heq =>
    rw [hm] at heq
    injection heq with heq
    subst heq
    split
    next q3 heq2 =>
      rw [hput] at heq2
      injection heq2 with heq2
      subst heq2
      rfl
    next heq2 =>
      rw [hput] at heq2
      exact Option.noConfusion heq2

theorem handleResponse_pending_sub (now : Int) (value : JVal) (st : RespState)
    (p : String × SQueue JVal)
    (hp : p ∈ (handleResponse now value st).state.pending) : p ∈ st.pending := by
  by_cases hh : hashableVal (ridOf value) = true
  · have h3 := (handleResponse_not_raised_subs now value st hh).2.2
    rw [h3] at hp
    exact mem_pendingErase st.pending _ p hp
  · have hh2 : hashableVal (ridOf value) = false := by
      cases h2 : hashableVal (ridOf value)
      · rfl
      · exact absurd h2 hh
    rw [handleResponse_unhashable now value st hh2] at hp
    exact hp

theorem phase1Pending_mem (body : List (String × JVal)) (rid : String) (qid : Nat)
    (pubErr : Option String) (pending : List (String × SQueue JVal))
    (p : String × SQueue JVal)
    (hp : p ∈ phase1Pending (apiCommandPhase1 body rid qid pubErr pending)) :
    p ∈ pending ∨ p = (rid, ⟨qid, 1, []⟩) := by
  simp only [apiCommandPhase1] at hp
  split at hp
  · left
    simpa [phase1Pending] using hp
  · split at hp
    · left
      simpa [phase1Pending] using hp
    · split at hp
      · simp only [phase1Pending] at hp
        have h1 := mem_eraseKey _ rid p hp
        split at h1
        · rcases mem_dictInsert pending rid _ p h1 with h | h
          · right
            exact h
          · left
            exact h
        · left
          exact h1
      · split at hp
        · simp only [phase1Pending] at hp
          split at hp
          · rcases mem_dictInsert pending rid _ p hp with h | h
            · right
              exact h
            · left
              exact h
          · left
            exact hp
        · simp only [phase1Pending] at hp
          split at hp
          · rcases mem_dictInsert pending rid _ p hp with h | h
            · right
              exact h
            · left
              exact h
          · left
            exact hp

theorem waiterInv_step (st : RespState) (e : Ev) (h : waiterInv st) :
    waiterInv (sysStep st e) := by
  cases e with
  | apiReq body rid qid pubErr =>
    intro p hp
    have hp2 : p ∈ phase1Pending (apiCommandPhase1 body rid qid pubErr st.pending) := by
      simp only [sysStep] at hp
      cases hph : apiCommandPhase1 body rid qid pubErr st.pending with
      | reply r pnd =>
        rw [hph] at hp
        simpa [phase1Pending, hph] using hp
      | blockOn r pnd =>
        rw [hph] at hp
        simpa [phase1Pending, hph] using hp
    rcases phase1Pending_mem body rid qid pubErr st.pending p hp2 with h1 | h1
    · exact h p h1
    · rw [h1]
      exact ⟨rfl, rfl⟩
  | apiTimeout rid =>
    intro p hp
    exact h p (mem_eraseKey _ _ _ hp)
  | respMsg now value =>
    intro p hp
    exact h p (handleResponse_pending_sub now value st p hp)
  | subscribe qid cap =>
    intro p hp
    exact h p hp
  | unsub qid =>
    intro p hp
    exact h p hp

theorem waiterInv_reachable (st : RespState) (h : Reachable st) : waiterInv st := by
  induction h with
  | init =>
    intro p hp
    simp [initState] at hp
  | step s e hs ih => exact waiterInv_step s e ih

theorem pendingLookup_pendingErase (pending : List (String × SQueue JVal))
    (rid : JVal) :
    pendingLookup (pendingErase pending rid) rid = none := by
  cases rid
  case str s => exact dictFind_eraseKey_self pending s
  all_goals rfl

theorem pendingLookup_unhashable (pending : List (String × SQueue JVal))
    (rid : JVal) (hh : hashableVal rid = false) :
    pendingLookup pending rid = none := by
  cases rid
  case list xs => rfl
  case obj fs => rfl
  all_goals simp [hashableVal] at hh

/-- C9: in every reachable hub state each registered pending waiter is
a single-slot empty queue; hence the correlator's delivery never hits
the queue-full branch, and since the waiter is removed from the map
before delivery, the request id maps to nothing afterwards — a
duplicate response finds no waiter, so each waiter is delivered to at
most once. -/
theorem waiter_single_delivery (st : RespState) (h : Reachable st) :
    waiterInv st ∧
    (∀ now value, (handleResponse now value st).putFull = false) ∧
    (∀ now value,
      pendingLookup (handleResponse now value st).state.pending (ridOf value)
        = none) := by
  refine ⟨waiterInv_reachable st h, ?_, ?_⟩
  · intro now value
    by_cases hh : hashableVal (ridOf value) = true
    · cases hw : pendingLookup st.pending (ridOf value) with
      | none => rw [handleResponse_unmatched now value st hh hw]
      | some q =>
        have hmem : ∃ s, ridOf value = JVal.str s ∧
            dictFind st.pending s = some q := by
          unfold pendingLookup at hw
          cases hrid : ridOf value <;> rw [hrid] at hw <;>
            first
            | exact Option.noConfusion hw
            | exact ⟨_, rfl, hw⟩
        obtain ⟨s, hrid, hfind⟩ := hmem
        have hq := waiterInv_reachable st h (s, q) (dictFind_mem _ _ _ hfind)
        have hc : q.cap = 1 := hq.1
        have hi : q.items = [] := hq.2
        have hput : putNowait q (JVal.obj (respOf now value)) =
            some { q with items := q.items ++ [JVal.obj (respOf now value)] } := by
          apply putNowait_not_full
          simp [isFull, hc, hi]
        rw [handleResponse_matched now value st q hh hw _ hput]
    · have hh2 : hashableVal (ridOf value) = false := by
        cases h2 : hashableVal (ridOf value)
        · rfl
        · exact absurd h2 hh
      rw [handleResponse_unhashable now value st hh2]
  · intro now value
    by_cases hh : hashableVal (ridOf value) = true
    · rw [(handleResponse_not_raised_subs now value st hh).2.2]
      exact pendingLookup_pendingErase st.pending (ridOf value)
    · have hh2 : hashableVal (ridOf value) = false := by
        cases h2 : hashableVal (ridOf value)
        · rfl
        · exact absurd h2 hh
      rw [handleResponse_unhashable now value st hh2]
      exact pendingLookup_unhashable st.pending (ridOf value) hh2

/-- C9 witness: the initial state is reachable; a delivery attempt
there never hits the queue-full branch and leaves the request id
unmapped. -/
theorem waiter_single_delivery_witness :
    waiterInv initState ∧
    (handleResponse 0 (.obj [("request_id", .str "a")]) initState).putFull
      = false ∧
    pendingLookup (handleResponse 0 (.obj [("request_id", .str "a")])
      initState).state.pending (ridOf (.obj [("request_id", .str "a")])) = none := by
  have h := waiter_single_delivery initState Reachable.init
  exact ⟨h.1, h.2.1 0 _, h.2.2 0 _⟩

theorem dictFind_append {α : Type} (d e : List (String × α)) (k : String) :
    dictFind (d ++ e) k =
      match dictFind d k with
      | some v => some v
      | none => dictFind e k := by
  induction d with
  | nil => simp [dictFind]
  | cons p rest ih =>
    by_cases hp : p.1 = k <;> simp [dictFind, hp, ih]

theorem foldl_dictInsert_fresh {α : Type} :
    ∀ (l d : List (String × α)),
      (∀ k ∈ l.map Prod.fst, dictFind d k = none) →
      (l.map Prod.fst).Nodup →
      l.foldl (fun d p => dictInsert d p.1 p.2) d = d ++ l := by
  intro l
  induction l with
  | nil =>
    intro d _ _
    simp
  | cons p rest ih =>
    intro d hfresh hn
    simp only [List.map_cons, List.nodup_cons] at hn
    have hfp : dictFind d p.1 = none := hfresh p.1 (by simp)
    have hfresh2 : ∀ k ∈ rest.map Prod.fst,
        dictFind (d ++ [(p.1, p.2)]) k = none := by
      intro k hk
      rw [dictFind_append, hfresh k (by simp [hk])]
      have hne : p.1 ≠ k := fun hh => hn.1 (hh ▸ hk)
      simp [dictFind, hne]
    simp only [List.foldl_cons]
    rw [dictInsert_of_fresh d p.1 p.2 hfp, ih _ hfresh2 hn.2, List.append_assoc]
    simp

theorem dictOfList_of_nodup {α : Type} (l : List (String × α))
    (hn : (l.map Prod.fst).Nodup) : dictOfList l = l := by
  unfold dictOfList
  rw [foldl_dictInsert_fresh l [] (fun k _ => rfl) hn]
  simp

theorem dictFind_filter_of_mem {α : Type} (P : String × α → Bool)
    (d : List (String × α)) (k : String) (v : α)
    (hn : (d.map Prod.fst).Nodup) (hmem : (k, v) ∈ d) (hP : P (k, v) = true) :
    dictFind (d.filter P) k = some v := by
  induction d with
  | nil => simp at hmem
  | cons p rest ih =>
    simp only [List.map_cons, List.nodup_cons] at hn
    rcases List.mem_cons.mp hmem with h1 | h1
    · rw [← h1, List.filter_cons_of_pos hP]
      simp [dictFind]
    · have hpk : p.1 ≠ k := by
        intro hh
        apply hn.1
        rw [hh]
        exact List.mem_map_of_mem _ h1
      by_cases hPp : P p = true
      · rw [List.filter_cons_of_pos hPp]
        rw [show dictFind (p :: rest.filter P) k = dictFind (rest.filter P) k from
          by simp [dictFind, hpk]]
        exact ih hn.2 h1
      · rw [List.filter_cons_of_neg (by simpa using hPp)]
        exact ih hn.2 h1

theorem dictFind_filter_eq_none {α : Type} (P : String × α → Bool)
    (d : List (String × α)) (k : String)
    (h : ∀ v : α, P (k, v) = false) :
    dictFind (d.filter P) k = none := by
  apply (dictFind_eq_none_iff _ _).mpr
  intro p hp hk
  obtain ⟨k1, v1⟩ := p
  have hPp : P (k1, v1) = true := List.of_mem_filter hp
  simp at hk
  subst hk
  rw [h v1] at hPp
  exact Bool.noConfusion hPp

theorem dictFind_mapStr (d : List (String × String)) (k : String) :
    dictFind (d.map (fun p => (p.1, JVal.str p.2))) k =
      (dictFind d k).map JVal.str := by
  induction d with
  | nil => rfl
  | cons p rest ih =>
    by_cases hp : p.1 = k <;> simp [dictFind, hp, ih]

theorem mergeStrLabels_find_ne (labels : List (String × String))
    (base : List (String × JVal)) (k : String)
    (h : ∀ p ∈ labels, p.1 ≠ k) :
    dictFind (mergeStrLabels base labels) k = dictFind base k := by
  induction labels generalizing base with
  | nil => rfl
  | cons p rest ih =>
    have hstep : mergeStrLabels base (p :: rest) =
        mergeStrLabels (dictInsert base p.1 (.str p.2)) rest := rfl
    rw [hstep, ih _ (fun q hq => h q (List.mem_cons_of_mem _ hq))]
    exact dictFind_insert_ne base p.1 k _ (h p (by simp)).symm

theorem mergeStrLabels_find (labels : List (String × String)) :
    ∀ (base : List (String × JVal)) (k v : String),
      (labels.map Prod.fst).Nodup → (k, v) ∈ labels →
      dictFind (mergeStrLabels base labels) k = some (.str v) := by
  induction labels with
  | nil =>
    intro base k v _ hmem
    simp at hmem
  | cons p rest ih =>
    intro base k v hn hmem
    simp only [List.map_cons, List.nodup_cons] at hn
    have hstep : mergeStrLabels base (p :: rest) =
        mergeStrLabels (dictInsert base p.1 (.str p.2)) rest := rfl
    rcases List.mem_cons.mp hmem with h1 | h1
    · have hk : p.1 = k := by rw [← h1]
      have hv : p.2 = v := by rw [← h1]
      have hne : ∀ q ∈ rest, q.1 ≠ k := by
        intro q hq hqk
        apply hn.1
        rw [show p.1 = q.1 from by rw [hk, hqk]]
        exact List.mem_map_of_mem _ hq
      rw [hstep, mergeStrLabels_find_ne rest _ k hne, hk, hv,
        dictFind_insert_self]
    · rw [hstep]
      exact ih _ k v hn.2 h1

theorem strHasLabelMark_shape (s : String) (h : strHasLabelMark s = true) :
    ∃ t, s.data = 'l' :: '.' :: t := by
  unfold strHasLabelMark at h
  split at h
  next heq => exact ⟨_, heq⟩
  next => exact Bool.noConfusion h

theorem stripLabelMark_inj (s1 s2 : String) (h1 : strHasLabelMark s1 = true)
    (h2 : strHasLabelMark s2 = true)
    (he : stripLabelMark s1 = stripLabelMark s2) : s1 = s2 := by
  obtain ⟨t1, ht1⟩ := strHasLabelMark_shape s1 h1
  obtain ⟨t2, ht2⟩ := strHasLabelMark_shape s2 h2
  unfold stripLabelMark at he
  rw [ht1, ht2] at he
  have he2 : t1 = t2 := by
    have h3 := congrArg String.data he
    simpa using h3
  have hdata : s1.data = s2.data := by rw [ht1, ht2, he2]
  cases s1
  cases s2
  simp at hdata
  rw [hdata]

theorem tsStep_ok (now : Int) (packet : List (String × JVal))
    (hts : ∀ v, dictFind packet "timestamp" = some v →
      convertTs v ≠ ConvRes.overflow) :
    ∃ w, tsStep now packet = pure (dictInsert packet "timestamp" (.int w)) := by
  unfold tsStep
  split
  · exact ⟨now, rfl⟩
  · exact ⟨now, rfl⟩
  next v hne heq =>
    cases hconv : convertTs v with
    | val n => exact ⟨if n < THRESH then n * 1000 else n, rfl⟩
    | caught => exact ⟨now, rfl⟩
    | overflow => exact absurd hconv (hts v heq)

theorem buildPacket_ok_shape (now : Int) (headers : List (String × String))
    (fields p1 : List (String × JVal))
    (hmerge : mergeLabelsStep fields (parsePacketHeaders headers).2 = pure p1)
    (hts3 : ∀ v, dictFind (dictInsert (dictInsert p1 "_envelope"
        (objOfStrDict (parsePacketHeaders headers).1)) "_received_at"
        (.int now)) "timestamp" = some v → convertTs v ≠ ConvRes.overflow) :
    ∃ w, buildPacket now headers (.obj fields) =
      .ok (dictInsert (dictInsert (dictInsert p1 "_envelope"
        (objOfStrDict (parsePacketHeaders headers).1)) "_received_at"
        (.int now)) "timestamp" (.int w)) := by
  obtain ⟨w, hw⟩ := tsStep_ok now _ hts3
  refine ⟨w, ?_⟩
  show mergeLabelsStep fields (parsePacketHeaders headers).2 >>= (fun packet =>
    tsStep now (dictInsert (dictInsert packet "_envelope"
      (objOfStrDict (parsePacketHeaders headers).1)) "_received_at"
      (.int now))) = _
  rw [hmerge, pure_bind, hw]
  rfl

/-- C8 counterexample: the original claim quantifies over every
consumed data message, but on a message whose payload `labels` field is
not a dict the merge itself raises `AttributeError`
(`packet.setdefault("labels", dict()).update(...)`, line 201), and on a
message whose timestamp saturates the float conversion C3's uncaught
`OverflowError` fires; in both cases the consumer loop drops the record
and the `l.`-prefixed header key is never merged anywhere. -/
theorem header_labels_merged_counterexample :
    buildPacket 0 [("l.sip.method", "INVITE")]
      (.obj [("labels", .str "x")]) = .error PyErr.attrErr ∧
    handlePacket 0 [("l.sip.method", "INVITE")]
      (.obj [("labels", .str "x")]) { subs := [⟨0, 5, []⟩], buf := [] } =
      .error PyErr.attrErr ∧
    buildPacket 0 [("l.sip.method", "INVITE")]
      (.obj [("timestamp", .str "1e400")]) = .error PyErr.overflowErr ∧
    buildPacket 0 [("l.sip.method", "INVITE")]
      (.obj [("timestamp", .int 1000000000000000000000000000000000000000000000000000000000000000000000000000000000000000000000000000000000000000000000000000000000000000000000000000000000000000000000000000000000000000000000000000000000000000000000000000000000000000000000000000000000000000000000000000000000000000000000000000000000000000000000)]) =
      .error PyErr.overflowErr := by
  exact ⟨rfl, rfl, rfl, rfl⟩

/-- C8 amended: for every consumed data message whose payload `labels`
field, if present, is a JSON object and whose timestamp does not make
`int(float(...))` raise the uncaught `OverflowError` (on the excluded
messages the handler raises and the record is dropped unmerged, see the
counterexample), and whose sideband keys are distinct, each header key
carrying the `l.` label-namespace marker is merged into the record's
label map with the marker stripped and is absent from the retained
`_envelope` field, while every non-marked header key is retained under
`_envelope`. -/
theorem header_labels_merged (now : Int) (headers : List (String × String))
    (fields : List (String × JVal))
    (hn : (headers.map Prod.fst).Nodup)
    (hl : dictFind fields "labels" = none ∨
      ∃ l0, dictFind fields "labels" = some (.obj l0))
    (hts : ∀ v, dictFind fields "timestamp" = some v →
      convertTs v ≠ ConvRes.overflow) :
    ∃ p envd, buildPacket now headers (.obj fields) = .ok p ∧
      dictFind p "_envelope" = some (.obj envd) ∧
      (∀ k v, (k, v) ∈ headers → strHasLabelMark k = true →
        dictFind envd k = none ∧
        ∃ lbl, dictFind p "labels" = some (.obj lbl) ∧
          dictFind lbl (stripLabelMark k) = some (.str v)) ∧
      (∀ k v, (k, v) ∈ headers → strHasLabelMark k = false →
        dictFind envd k = some (.str v)) := by
  have hph : parsePacketHeaders headers =
      (headers.filter (fun p => ¬ strHasLabelMark p.1),
       (headers.filter (fun p => strHasLabelMark p.1)).map
         (fun p => (stripLabelMark p.1, p.2))) := by
    unfold parsePacketHeaders
    rw [dictOfList_of_nodup headers hn]
  set env := headers.filter (fun p => ¬ strHasLabelMark p.1) with henvdef
  set labs := (headers.filter (fun p => strHasLabelMark p.1)).map
    (fun p => (stripLabelMark p.1, p.2)) with hlabsdef
  set envd := env.map (fun p => (p.1, JVal.str p.2)) with henvddef
  have hobj : objOfStrDict env = .obj envd := rfl
  have henv2 : (parsePacketHeaders headers).2 = labs := by rw [hph]
  have henv1 : (parsePacketHeaders headers).1 = env := by rw [hph]
  -- lookups in the envelope part
  have henvfind : ∀ k v, (k, v) ∈ headers → strHasLabelMark k = false →
      dictFind envd k = some (.str v) := by
    intro k v hkv hmark
    rw [henvddef, dictFind_mapStr,
      dictFind_filter_of_mem _ headers k v hn hkv (by simp [hmark])]
    rfl
  have henvnone : ∀ k, strHasLabelMark k = true → dictFind envd k = none := by
    intro k hmark
    rw [henvddef, dictFind_mapStr,
      dictFind_filter_eq_none _ headers k (fun v => by simp [hmark])]
    rfl
  -- label-dict membership for marked keys
  have hmemlab : ∀ k v, (k, v) ∈ headers → strHasLabelMark k = true →
      (stripLabelMark k, v) ∈ labs := by
    intro k v hkv hmark
    rw [hlabsdef]
    exact List.mem_map.mpr ⟨(k, v), List.mem_filter.mpr ⟨hkv, hmark⟩, rfl⟩
  have hfilterKeysNodup :
      ((headers.filter (fun p => strHasLabelMark p.1)).map Prod.fst).Nodup :=
    List.Sublist.nodup (List.Sublist.map Prod.fst (List.filter_sublist headers)) hn
  have hlabsNodup : (labs.map Prod.fst).Nodup := by
    rw [hlabsdef, List.map_map]
    have hcomp : (Prod.fst ∘ fun p : String × String =>
        (stripLabelMark p.1, p.2)) = fun p => stripLabelMark p.1 := rfl
    rw [hcomp]
    have hmapmap : (headers.filter (fun p => strHasLabelMark p.1)).map
        (fun p => stripLabelMark p.1) =
        ((headers.filter (fun p => strHasLabelMark p.1)).map Prod.fst).map
          stripLabelMark := by
      rw [List.map_map]
      rfl
    rw [hmapmap]
    apply (List.nodup_map_iff_inj_on hfilterKeysNodup).mpr
    intro x hx y hy hxy
    obtain ⟨px, hpx, hpx2⟩ := List.mem_map.mp hx
    obtain ⟨py, hpy, hpy2⟩ := List.mem_map.mp hy
    have hmx : strHasLabelMark x = true := by
      rw [← hpx2]
      exact (List.mem_filter.mp hpx).2
    have hmy : strHasLabelMark y = true := by
      rw [← hpy2]
      exact (List.mem_filter.mp hpy).2
    exact stripLabelMark_inj x y hmx hmy hxy
  by_cases hempL : labs.isEmpty = true
  · -- no header labels: the merge is skipped
    have hnomark : ∀ k v, (k, v) ∈ headers → strHasLabelMark k = true → False := by
      intro k v hkv hmark
      have hmem := hmemlab k v hkv hmark
      rw [List.isEmpty_iff] at hempL
      rw [hempL] at hmem
      simp at hmem
    have hmerge : mergeLabelsStep fields (parsePacketHeaders headers).2 =
        pure fields := by
      rw [henv2]
      unfold mergeLabelsStep
      rw [if_pos hempL]
    have hts3 : ∀ v, dictFind (dictInsert (dictInsert fields "_envelope"
        (objOfStrDict (parsePacketHeaders headers).1)) "_received_at"
        (.int now)) "timestamp" = some v → convertTs v ≠ ConvRes.overflow := by
      intro v hv
      rw [dictFind_insert_ne _ _ _ _ (by decide),
        dictFind_insert_ne _ _ _ _ (by decide)] at hv
      exact hts v hv
    obtain ⟨w, hw⟩ := buildPacket_ok_shape now headers fields fields hmerge hts3
    rw [henv1, hobj] at hw
    refine ⟨_, envd, hw, ?_, ?_, ?_⟩
    · rw [dictFind_insert_ne _ _ _ _ (by decide),
        dictFind_insert_ne _ _ _ _ (by decide), dictFind_insert_self]
    · intro k v hkv hmark
      exact absurd (hnomark k v hkv hmark) (by simp)
    · intro k v hkv hmark
      exact henvfind k v hkv hmark
  · -- header labels present: the merge runs
    have hempF : labs.isEmpty = false := by
      cases h2 : labs.isEmpty
      · rfl
      · exact absurd h2 hempL
    obtain ⟨l0, hl0⟩ : ∃ l0, mergeLabelsStep fields (parsePacketHeaders headers).2 =
        pure (dictInsert fields "labels" (.obj (mergeStrLabels l0 labs))) := by
      rcases hl with hfind | ⟨l0, hfind⟩
      · refine ⟨[], ?_⟩
        rw [henv2]
        unfold mergeLabelsStep
        rw [if_neg (by simp [hempF]), hfind]
      · refine ⟨l0, ?_⟩
        rw [henv2]
        unfold mergeLabelsStep
        rw [if_neg (by simp [hempF]), hfind]
    have hts3 : ∀ v, dictFind (dictInsert (dictInsert
        (dictInsert fields "labels" (.obj (mergeStrLabels l0 labs)))
        "_envelope" (objOfStrDict (parsePacketHeaders headers).1))
        "_received_at" (.int now)) "timestamp" = some v →
        convertTs v ≠ ConvRes.overflow := by
      intro v hv
      rw [dictFind_insert_ne _ _ _ _ (by decide),
        dictFind_insert_ne _ _ _ _ (by decide),
        dictFind_insert_ne _ _ _ _ (by decide)] at hv
      exact hts v hv
    obtain ⟨w, hw⟩ := buildPacket_ok_shape now headers fields
      (dictInsert fields "labels" (.obj (mergeStrLabels l0 labs))) hl0 hts3
    rw [henv1, hobj] at hw
    refine ⟨_, envd, hw, ?_, ?_, ?_⟩
    · rw [dictFind_insert_ne _ _ _ _ (by decide),
        dictFind_insert_ne _ _ _ _ (by decide), dictFind_insert_self]
    · intro k v hkv hmark
      refine ⟨henvnone k hmark, mergeStrLabels l0 labs, ?_, ?_⟩
      · rw [dictFind_insert_ne _ _ _ _ (by decide),
          dictFind_insert_ne _ _ _ _ (by decide),
          dictFind_insert_ne _ _ _ _ (by decide), dictFind_insert_self]
      · exact mergeStrLabels_find labs l0 (stripLabelMark k) v hlabsNodup
          (hmemlab k v hkv hmark)
    · intro k v hkv hmark
      exact henvfind k v hkv hmark

/-- C8 witness: header `l.sip.method=INVITE` lands in the label map as
`sip.method=INVITE` and not in the envelope; `task_id=t1` stays in the
envelope. -/
theorem header_labels_merged_witness :
    (([("l.sip.method", "INVITE"), ("task_id", "t1")].map Prod.fst).Nodup) ∧
    (∃ p envd, buildPacket 3 [("l.sip.method", "INVITE"), ("task_id", "t1")]
        (.obj []) = .ok p ∧
      dictFind p "_envelope" = some (.obj envd) ∧
      (∀ k v, (k, v) ∈ [("l.sip.method", "INVITE"), ("task_id", "t1")] →
        strHasLabelMark k = true →
        dictFind envd k = none ∧
        ∃ lbl, dictFind p "labels" = some (.obj lbl) ∧
          dictFind lbl (stripLabelMark k) = some (.str v)) ∧
      (∀ k v, (k, v) ∈ [("l.sip.method", "INVITE"), ("task_id", "t1")] →
        strHasLabelMark k = false →
        dictFind envd k = some (.str v))) := by
  refine ⟨by decide, ?_⟩
  exact header_labels_merged 3 _ [] (by decide) (Or.inl rfl)
    (fun v hv => by simp [dictFind] at hv)

end Otus
